import Mathlib

/-!
Shallow embedding of the Expense Splitter web application (src/app.py):
the relational data model (User, Group, GroupMember, Expense), the balance
calculator of the view_group handler, and the request handlers signup,
login, view_group and add_expense.

Monetary amounts are modelled as exact rationals.  Python's round(x, 2)
is modelled by round-half-to-even over ℚ (pyRound2), and Python's float()
string conversion by a parser for plain decimal literals with an optional
exponent (pyFloat); the special values inf/infinity/nan, underscore digit
separators and surrounding whitespace are not modelled.
-/

namespace ExpenseSplitter

/-- Primary key of the user table. -/
abbrev UserId := Nat

/-- Primary key of the group table. -/
abbrev GroupId := Nat

/-- A row of the user table (app.py lines 19-23); password holds the stored hash. -/
structure User where
  id : UserId
  username : String
  email : String
  password : String
  deriving DecidableEq, Repr

/-- A row of the group table (app.py lines 25-29). -/
structure Group where
  id : GroupId
  name : String
  created_by : UserId
  deriving DecidableEq, Repr

/-- A row of the group_member table (app.py lines 31-36). -/
structure GroupMember where
  id : Nat
  group_id : GroupId
  user_id : UserId
  deriving DecidableEq, Repr

/-- A row of the expense table (app.py lines 38-45); the float amount column is
modelled as an exact rational.  The creation timestamp plays no role in any
computation and is omitted. -/
structure Expense where
  id : Nat
  group_id : GroupId
  paid_by : UserId
  description : String
  amount : ℚ
  deriving DecidableEq, Repr

/-- The persistent store: one list of rows per table. -/
structure DB where
  users : List User
  groups : List Group
  group_members : List GroupMember
  expenses : List Expense
  deriving DecidableEq, Repr

/-- The balances dictionary of view_group, as an association list from user id
to running balance (app.py line 132 builds it with keys in member order). -/
abbrev Balances := List (UserId × ℚ)

/-- Dictionary lookup: the value stored at key u (first matching entry). -/
def lookupBal (u : UserId) : Balances → Option ℚ
  | [] => none
  | (k, v) :: rest => if u = k then some v else lookupBal u rest

/-- The dictionary update balances[k] += a of app.py line 139: adds a to the
entry at key k, or fails (Python raises KeyError) when k is not a key. -/
def addToKey (k : UserId) (a : ℚ) : Balances → Option Balances
  | [] => none
  | (k', v) :: rest =>
    if k = k' then some ((k', v + a) :: rest)
    else (addToKey k a rest).map (fun r => (k', v) :: r)

/-- The credit loop of app.py lines 138-139: for each expense in order, add its
amount to the balance of its payer; fails when some payer is not a key. -/
def creditExpenses : List Expense → Balances → Option Balances
  | [], b => some b
  | e :: es, b => (addToKey e.paid_by e.amount b).bind (creditExpenses es)

/-- total_amount of app.py line 135: the sum of all expense amounts. -/
def totalAmount (expenses : List Expense) : ℚ :=
  (expenses.map Expense.amount).sum

/-- The debit loop of app.py lines 141-142: subtract the share from every balance. -/
def subShare (share : ℚ) (b : Balances) : Balances :=
  b.map (fun p => (p.1, p.2 - share))

/-- The balance computation of app.py lines 132-142.  The initial dictionary has
one key per distinct member user id with value 0; when both lists are non-empty
(the guard if expenses and members of line 134) each expense amount is credited
to its payer and the equal share total/len(members) is debited from every key.
The result is none exactly when Python raises KeyError on line 139. -/
def computeBalances (members : List UserId) (expenses : List Expense) :
    Option Balances :=
  let balances : Balances := members.dedup.map (fun u => (u, (0 : ℚ)))
  if expenses ≠ [] ∧ members ≠ [] then
    (creditExpenses expenses balances).map
      (fun b => subShare (totalAmount expenses / (members.length : ℚ)) b)
  else
    some balances

/-- Round half to even over ℚ: the rounding rule of Python's builtin round. -/
def roundHalfEven (q : ℚ) : ℤ :=
  if Int.fract q < 1 / 2 then ⌊q⌋
  else if 1 / 2 < Int.fract q then ⌊q⌋ + 1
  else if ⌊q⌋ % 2 = 0 then ⌊q⌋ else ⌊q⌋ + 1

/-- Python's round(q, 2) of app.py line 145, over exact rationals. -/
def pyRound2 (q : ℚ) : ℚ :=
  (roundHalfEven (100 * q) : ℚ) / 100

/-- The display rounding of app.py lines 144-147: every balance rounded to two
decimal places.  (The source additionally relabels each user id key by the
user's username for rendering; balances are kept keyed by user id here.) -/
def displayBalances (b : Balances) : Balances :=
  b.map (fun p => (p.1, pyRound2 p.2))

/-- The balances view_group renders for a member list and expense list:
computeBalances followed by the display rounding (app.py lines 132-147). -/
def viewGroupBalances (members : List UserId) (expenses : List Expense) :
    Option Balances :=
  (computeBalances members expenses).map displayBalances

/-- The sum of the amounts of the expenses paid by user u. -/
def paidBy (u : UserId) (expenses : List Expense) : ℚ :=
  ((expenses.filter (fun e => e.paid_by = u)).map Expense.amount).sum

/-- Truthiness test of a fetched form field: Python's not applied to
request.form.get(...), true for a missing field and for the empty string. -/
def formFalsy : Option String → Bool
  | none => true
  | some s => s = ""

/-- Characters consumed as a digit run, and the rest. -/
def takeDigits (cs : List Char) : List Char × List Char :=
  (cs.takeWhile Char.isDigit, cs.dropWhile Char.isDigit)

/-- Value of a digit run read in base 10. -/
def digitsToNat (ds : List Char) : Nat :=
  ds.foldl (fun acc c => 10 * acc + (c.toNat - 48)) 0

/-- An unsigned decimal literal: digits, optionally with a decimal point
(digits on at least one side of the point); returns its value and the rest. -/
def parseUnsigned (cs : List Char) : Option (ℚ × List Char) :=
  let ip := takeDigits cs
  match ip.2 with
  | '.' :: rest2 =>
    let fp := takeDigits rest2
    if ip.1 = [] ∧ fp.1 = [] then none
    else some ((digitsToNat ip.1 : ℚ) + (digitsToNat fp.1 : ℚ) / (10 : ℚ) ^ fp.1.length, fp.2)
  | _ => if ip.1 = [] then none else some ((digitsToNat ip.1 : ℚ), ip.2)

/-- The exponent tail of a decimal literal: an optional sign and digits,
which must exhaust the string; scales the mantissa m (already signed). -/
def parseExpTail (m : ℚ) (cs : List Char) : Option ℚ :=
  let rest := match cs with
    | '-' :: r => (true, r)
    | '+' :: r => (false, r)
    | _ => (false, cs)
  let ds := takeDigits rest.2
  if ds.1 = [] ∨ ds.2 ≠ [] then none
  else if rest.1 then some (m / (10 : ℚ) ^ digitsToNat ds.1)
  else some (m * (10 : ℚ) ^ digitsToNat ds.1)

/-- Python's float(s) of app.py line 171, modelled on plain decimal literals:
an optional sign, digits with an optional decimal point, and an optional
exponent part.  Returns none when Python raises ValueError.  (The special
values inf/infinity/nan, underscore separators and surrounding whitespace
are accepted by Python but not modelled.) -/
def pyFloat (s : String) : Option ℚ :=
  let cs := s.toList
  let signed : ℚ × List Char := match cs with
    | '-' :: rest => (-1, rest)
    | '+' :: rest => (1, rest)
    | _ => (1, cs)
  match parseUnsigned signed.2 with
  | none => none
  | some mr =>
    match mr.2 with
    | [] => some (signed.1 * mr.1)
    | 'e' :: rest2 => parseExpTail (signed.1 * mr.1) rest2
    | 'E' :: rest2 => parseExpTail (signed.1 * mr.1) rest2
    | _ => none

/-- Outcome of a signup POST (app.py lines 60-77). -/
inductive SignupResult
  | redirectSignup
  | redirectLogin
  deriving DecidableEq, Repr

/-- The signup POST handler of app.py lines 60-77.  The salted password hash
generate_password_hash is a parameter (its output is random salted data; no
handler inspects it other than through check_password_hash).  Form fields are
modelled as present strings; newId models the autoincremented primary key. -/
def signup (hash : String → String) (db : DB)
    (username email password : String) (newId : UserId) : SignupResult × DB :=
  if (db.users.filter (fun u => u.email = email)) ≠ [] then
    (SignupResult.redirectSignup, db)
  else
    (SignupResult.redirectLogin,
      { db with users := db.users ++ [⟨newId, username, email, hash password⟩] })

/-- Outcome of a login POST (app.py lines 83-93): either the redirect back to
the login form, or login_user establishing a session for the given user id. -/
inductive LoginResult
  | redirectLogin
  | loggedIn (uid : UserId)
  deriving DecidableEq, Repr

/-- The login POST handler of app.py lines 83-93.  check models werkzeug's
check_password_hash, taking the stored hash and the submitted password.
The handler writes nothing, so only the response is returned. -/
def login (check : String → String → Bool) (db : DB)
    (email password : String) : LoginResult :=
  match db.users.find? (fun u => u.email = email) with
  | none => LoginResult.redirectLogin
  | some user =>
    if check user.password password then LoginResult.loggedIn user.id
    else LoginResult.redirectLogin

/-- The page view_group renders (app.py lines 125-154): a 404 for an unknown
group id, or the group page carrying the displayed balances. -/
inductive ViewGroupPage
  | notFound
  | page (balances : Balances)
  deriving DecidableEq, Repr

/-- The view_group handler of app.py lines 125-154: fetch the group (404 when
absent), query the expenses and member rows of the group, compute and round
the balances, render.  The response is none when the balance computation
raises (KeyError on line 139); the store is returned unchanged alongside. -/
def view_group (db : DB) (gid : GroupId) : Option ViewGroupPage × DB :=
  if (db.groups.filter (fun g => g.id = gid)) = [] then
    (some ViewGroupPage.notFound, db)
  else
    let expenses := db.expenses.filter (fun e => e.group_id = gid)
    let members := (db.group_members.filter (fun m => m.group_id = gid)).map
      GroupMember.user_id
    ((viewGroupBalances members expenses).map ViewGroupPage.page, db)

/-- A POST form of the add-expense page: the two fetched fields, each possibly
missing. -/
structure ExpenseForm where
  description : Option String
  amount : Option String
  deriving DecidableEq, Repr

/-- Outcome of an add_expense POST (app.py lines 156-189). -/
inductive AddExpenseResult
  | notFound
  | redirectAddExpense
  | redirectViewGroup
  deriving DecidableEq, Repr

/-- The add_expense POST handler of app.py lines 156-189: fetch the group (404
when absent); reject with a redirect back to the form when a field is missing
or empty, or when the amount does not parse as a float; otherwise persist the
expense paid by the current user uid and redirect to the group page.  newId
models the autoincremented primary key. -/
def add_expense (db : DB) (gid : GroupId) (uid : UserId)
    (form : ExpenseForm) (newId : Nat) : AddExpenseResult × DB :=
  if (db.groups.filter (fun g => g.id = gid)) = [] then
    (AddExpenseResult.notFound, db)
  else if formFalsy form.description || formFalsy form.amount then
    (AddExpenseResult.redirectAddExpense, db)
  else
    match pyFloat (form.amount.getD "") with
    | none => (AddExpenseResult.redirectAddExpense, db)
    | some amount_value =>
      (AddExpenseResult.redirectViewGroup,
        { db with expenses := db.expenses ++
            [⟨newId, gid, uid, form.description.getD "", amount_value⟩] })

/-! Dictionary lemmas: behaviour of the balances association list under the
update of app.py line 139 and the loops around it. -/

lemma addToKey_isSome (k : UserId) (a : ℚ) (b : Balances) :
    (addToKey k a b).isSome ↔ k ∈ b.map Prod.fst := by
  induction b with
  | nil => simp [addToKey]
  | cons p rest ih =>
    obtain ⟨k', v⟩ := p
    by_cases h : k = k'
    · simp [addToKey, h]
    · simp [addToKey, h, ih]

lemma addToKey_keys {k : UserId} {a : ℚ} {b r : Balances}
    (h : addToKey k a b = some r) : r.map Prod.fst = b.map Prod.fst := by
  induction b generalizing r with
  | nil => simp [addToKey] at h
  | cons p rest ih =>
    obtain ⟨k', v⟩ := p
    by_cases hk : k = k'
    · simp [addToKey, hk] at h
      subst h
      simp
    · simp [addToKey, hk] at h
      obtain ⟨r', hr', rfl⟩ := h
      simp [ih hr']

lemma addToKey_sum {k : UserId} {a : ℚ} {b r : Balances}
    (h : addToKey k a b = some r) :
    (r.map Prod.snd).sum = (b.map Prod.snd).sum + a := by
  induction b generalizing r with
  | nil => simp [addToKey] at h
  | cons p rest ih =>
    obtain ⟨k', v⟩ := p
    by_cases hk : k = k'
    · simp [addToKey, hk] at h
      subst h
      simp
      ring
    · simp [addToKey, hk] at h
      obtain ⟨r', hr', rfl⟩ := h
      simp [ih hr']
      ring

lemma addToKey_lookup_self {k : UserId} {a : ℚ} {b r : Balances}
    (h : addToKey k a b = some r) :
    lookupBal k r = (lookupBal k b).map (fun v => v + a) := by
  induction b generalizing r with
  | nil => simp [addToKey] at h
  | cons p rest ih =>
    obtain ⟨k', v⟩ := p
    by_cases hk : k = k'
    · simp [addToKey, hk] at h
      subst h
      simp [lookupBal, hk]
    · simp [addToKey, hk] at h
      obtain ⟨r', hr', rfl⟩ := h
      simp [lookupBal, hk, ih hr']

lemma addToKey_lookup_ne {k : UserId} {a : ℚ} {b r : Balances} {x : UserId}
    (h : addToKey k a b = some r) (hx : x ≠ k) :
    lookupBal x r = lookupBal x b := by
  induction b generalizing r with
  | nil => simp [addToKey] at h
  | cons p rest ih =>
    obtain ⟨k', v⟩ := p
    by_cases hk : k = k'
    · simp [addToKey, hk] at h
      subst h
      subst hk
      simp [lookupBal, hx]
    · simp [addToKey, hk] at h
      obtain ⟨r', hr', rfl⟩ := h
      simp [lookupBal, ih hr']

lemma totalAmount_cons (e : Expense) (es : List Expense) :
    totalAmount (e :: es) = e.amount + totalAmount es := by
  simp [totalAmount]

lemma paidBy_nil (u : UserId) : paidBy u [] = 0 := by
  simp [paidBy]

lemma paidBy_cons (u : UserId) (e : Expense) (es : List Expense) :
    paidBy u (e :: es) = (if e.paid_by = u then e.amount else 0) + paidBy u es := by
  by_cases h : e.paid_by = u <;> simp [paidBy, List.filter_cons, h]

lemma creditExpenses_isSome (E : List Expense) (b : Balances) :
    (creditExpenses E b).isSome ↔ ∀ e ∈ E, e.paid_by ∈ b.map Prod.fst := by
  induction E generalizing b with
  | nil => simp [creditExpenses]
  | cons e es ih =>
    simp only [creditExpenses]
    rcases hsome : addToKey e.paid_by e.amount b with _ | b1
    · have hnot : e.paid_by ∉ b.map Prod.fst := by
        rw [← addToKey_isSome e.paid_by e.amount b, hsome]
        simp
      constructor
      · intro hcontra
        simp at hcontra
      · intro hall
        exact absurd (hall e (List.mem_cons_self e es)) hnot
    · have hmem : e.paid_by ∈ b.map Prod.fst := by
        rw [← addToKey_isSome e.paid_by e.amount b, hsome]
        simp
      have hkeys := addToKey_keys hsome
      simp only [Option.some_bind]
      rw [ih b1, hkeys]
      constructor
      · intro hall x hx
        rcases List.mem_cons.mp hx with rfl | hx'
        · exact hmem
        · exact hall x hx'
      · intro hall x hx
        exact hall x (List.mem_cons_of_mem e hx)

lemma creditExpenses_keys {E : List Expense} {b r : Balances}
    (h : creditExpenses E b = some r) : r.map Prod.fst = b.map Prod.fst := by
  induction E generalizing b with
  | nil =>
    simp [creditExpenses] at h
    subst h
    rfl
  | cons e es ih =>
    simp only [creditExpenses] at h
    rcases hsome : addToKey e.paid_by e.amount b with _ | b1
    · rw [hsome] at h
      simp at h
    · rw [hsome] at h
      simp only [Option.some_bind] at h
      rw [ih h, addToKey_keys hsome]

lemma creditExpenses_sum {E : List Expense} {b r : Balances}
    (h : creditExpenses E b = some r) :
    (r.map Prod.snd).sum = (b.map Prod.snd).sum + totalAmount E := by
  induction E generalizing b with
  | nil =>
    simp [creditExpenses] at h
    subst h
    simp [totalAmount]
  | cons e es ih =>
    simp only [creditExpenses] at h
    rcases hsome : addToKey e.paid_by e.amount b with _ | b1
    · rw [hsome] at h
      simp at h
    · rw [hsome] at h
      simp only [Option.some_bind] at h
      rw [ih h, addToKey_sum hsome, totalAmount_cons]
      ring

lemma creditExpenses_lookup {E : List Expense} {b r : Balances}
    (h : creditExpenses E b = some r) (u : UserId) :
    lookupBal u r = (lookupBal u b).map (fun v => v + paidBy u E) := by
  induction E generalizing b with
  | nil =>
    simp [creditExpenses] at h
    subst h
    simp [paidBy]
  | cons e es ih =>
    simp only [creditExpenses] at h
    rcases hsome : addToKey e.paid_by e.amount b with _ | b1
    · rw [hsome] at h
      simp at h
    · rw [hsome] at h
      simp only [Option.some_bind] at h
      rw [ih h, paidBy_cons]
      by_cases hu : e.paid_by = u
      · subst hu
        rw [addToKey_lookup_self hsome]
        rcases lookupBal e.paid_by b with _ | v
        · simp
        · simp
          ring
      · rw [addToKey_lookup_ne hsome (Ne.symm hu)]
        simp [hu]

lemma lookupBal_zeros (u : UserId) (l : List UserId) :
    lookupBal u (l.map (fun x => (x, (0 : ℚ)))) = if u ∈ l then some 0 else none := by
  induction l with
  | nil => simp [lookupBal]
  | cons x xs ih =>
    by_cases hx : u = x
    · simp [lookupBal, hx]
    · simp [lookupBal, hx, ih]

lemma keys_zeros (l : List UserId) :
    (l.map (fun x => (x, (0 : ℚ)))).map Prod.fst = l := by
  simp [Function.comp_def]

lemma sum_zeros (l : List UserId) :
    ((l.map (fun x => (x, (0 : ℚ)))).map Prod.snd).sum = 0 := by
  simp [Function.comp_def]

lemma lookupBal_subShare (s : ℚ) (b : Balances) (u : UserId) :
    lookupBal u (subShare s b) = (lookupBal u b).map (fun v => v - s) := by
  induction b with
  | nil => simp [subShare, lookupBal]
  | cons p rest ih =>
    obtain ⟨k, v⟩ := p
    by_cases hk : u = k
    · simp [subShare, lookupBal, hk]
    · simpa [subShare, lookupBal, hk] using ih

lemma keys_subShare (s : ℚ) (b : Balances) :
    (subShare s b).map Prod.fst = b.map Prod.fst := by
  simp [subShare]

lemma sum_subShare (s : ℚ) (b : Balances) :
    ((subShare s b).map Prod.snd).sum = (b.map Prod.snd).sum - (b.length : ℚ) * s := by
  induction b with
  | nil => simp [subShare]
  | cons p rest ih =>
    obtain ⟨k, v⟩ := p
    simp only [subShare, List.map_cons, List.sum_cons, List.length_cons] at *
    rw [ih]
    push_cast
    ring

lemma lookupBal_display (b : Balances) (u : UserId) :
    lookupBal u (displayBalances b) = (lookupBal u b).map pyRound2 := by
  induction b with
  | nil => simp [displayBalances, lookupBal]
  | cons p rest ih =>
    obtain ⟨k, v⟩ := p
    by_cases hk : u = k
    · simp [displayBalances, lookupBal, hk]
    · simpa [displayBalances, lookupBal, hk] using ih

lemma keys_display (b : Balances) :
    (displayBalances b).map Prod.fst = b.map Prod.fst := by
  simp [displayBalances]

/-! Rounding lemmas: round half to even lands within one half, so the display
rounding of a balance moves it by at most one cent. -/

lemma abs_roundHalfEven_sub (x : ℚ) : |(roundHalfEven x : ℚ) - x| ≤ 1 / 2 := by
  have h0 : (0 : ℚ) ≤ Int.fract x := Int.fract_nonneg x
  have h1 : Int.fract x < 1 := Int.fract_lt_one x
  have hfr : (⌊x⌋ : ℚ) + Int.fract x = x := Int.floor_add_fract x
  unfold roundHalfEven
  split_ifs with hlt hgt heven
  · rw [abs_le]
    constructor <;> linarith
  · rw [abs_le]
    push_cast
    constructor <;> linarith
  · rw [not_lt] at hlt hgt
    have heq : Int.fract x = 1 / 2 := le_antisymm hgt hlt
    rw [abs_le]
    constructor <;> linarith
  · rw [not_lt] at hlt hgt
    have heq : Int.fract x = 1 / 2 := le_antisymm hgt hlt
    rw [abs_le]
    push_cast
    constructor <;> linarith

lemma abs_pyRound2_sub (q : ℚ) : |pyRound2 q - q| ≤ 1 / 100 := by
  have h := abs_roundHalfEven_sub (100 * q)
  have key : pyRound2 q - q = ((roundHalfEven (100 * q) : ℚ) - 100 * q) / 100 := by
    rw [pyRound2]
    ring
  rw [key, abs_div, show |(100 : ℚ)| = 100 by norm_num]
  linarith

lemma pyRound2_zero : pyRound2 0 = 0 := by
  have : roundHalfEven 0 = 0 := by
    unfold roundHalfEven
    norm_num
  simp [pyRound2, this]

lemma abs_sum_display (b : Balances) :
    |((displayBalances b).map Prod.snd).sum - (b.map Prod.snd).sum| ≤
      (b.length : ℚ) * (1 / 100) := by
  induction b with
  | nil => simp [displayBalances]
  | cons p rest ih =>
    obtain ⟨k, v⟩ := p
    simp only [displayBalances, List.map_cons, List.sum_cons, List.length_cons] at *
    have h1 := abs_pyRound2_sub v
    have tri : |pyRound2 v + (List.sum (List.map Prod.snd (List.map
        (fun p => (p.1, pyRound2 p.2)) rest))) - (v + List.sum (List.map Prod.snd rest))| ≤
        |pyRound2 v - v| + |List.sum (List.map Prod.snd (List.map
        (fun p => (p.1, pyRound2 p.2)) rest)) - List.sum (List.map Prod.snd rest)| := by
      have := abs_add (pyRound2 v - v) (List.sum (List.map Prod.snd (List.map
        (fun p => (p.1, pyRound2 p.2)) rest)) - List.sum (List.map Prod.snd rest))
      calc |pyRound2 v + List.sum (List.map Prod.snd (List.map
            (fun p => (p.1, pyRound2 p.2)) rest)) - (v + List.sum (List.map Prod.snd rest))|
          = |(pyRound2 v - v) + (List.sum (List.map Prod.snd (List.map
            (fun p => (p.1, pyRound2 p.2)) rest)) - List.sum (List.map Prod.snd rest))| := by
            ring_nf
        _ ≤ _ := this
    calc |pyRound2 v + List.sum (List.map Prod.snd (List.map
          (fun p => (p.1, pyRound2 p.2)) rest)) - (v + List.sum (List.map Prod.snd rest))|
        ≤ |pyRound2 v - v| + |List.sum (List.map Prod.snd (List.map
          (fun p => (p.1, pyRound2 p.2)) rest)) - List.sum (List.map Prod.snd rest)| := tri
      _ ≤ 1 / 100 + (rest.length : ℚ) * (1 / 100) := add_le_add h1 ih
      _ = ((rest.length : ℚ) + 1) * (1 / 100) := by ring
      _ = (((rest.length + 1 : ℕ)) : ℚ) * (1 / 100) := by push_cast; ring

/-- Central description of the balance calculator: for a duplicate-free,
non-empty member list whose members include every payer, view_group displays,
for each member u, the rounding of paidBy u minus the equal share, the key
list is exactly the member list, and the displayed balances sum to within one
cent per member of zero. -/
lemma viewGroupBalances_spec (members : List UserId) (E : List Expense)
    (hnd : members.Nodup) (hm : members ≠ [])
    (hpay : ∀ e ∈ E, e.paid_by ∈ members) :
    ∃ b, viewGroupBalances members E = some b ∧
      b.map Prod.fst = members ∧
      (∀ u ∈ members, lookupBal u b =
        some (pyRound2 (paidBy u E - totalAmount E / (members.length : ℚ)))) ∧
      |(b.map Prod.snd).sum| ≤ (members.length : ℚ) * (1 / 100) := by
  have hded : members.dedup = members := List.dedup_eq_self.mpr hnd
  have hn0 : (members.length : ℚ) ≠ 0 := by
    have hl : members.length ≠ 0 := by
      simpa [List.length_eq_zero] using hm
    exact_mod_cast hl
  by_cases hE : E = []
  · subst hE
    refine ⟨displayBalances (members.map (fun u => (u, (0 : ℚ)))), ?_, ?_, ?_, ?_⟩
    · simp [viewGroupBalances, computeBalances, hded]
    · rw [keys_display, keys_zeros]
    · intro u hu
      rw [lookupBal_display, lookupBal_zeros]
      simp [hu, paidBy_nil, totalAmount, pyRound2_zero]
    · have hz : ((displayBalances (members.map (fun u => (u, (0 : ℚ))))).map
          Prod.snd).sum = 0 := by
        simp [displayBalances, Function.comp_def, pyRound2_zero]
      rw [hz]
      simp
  · have hpay' : ∀ e ∈ E, e.paid_by ∈
        (members.dedup.map (fun u => (u, (0 : ℚ)))).map Prod.fst := by
      intro e he
      rw [keys_zeros, hded]
      exact hpay e he
    obtain ⟨r, hr⟩ := Option.isSome_iff_exists.mp
      ((creditExpenses_isSome E (members.dedup.map (fun u => (u, (0 : ℚ))))).mpr hpay')
    have hkeysr : r.map Prod.fst = members := by
      rw [creditExpenses_keys hr, keys_zeros, hded]
    have hlenr : r.length = members.length := by
      have := congrArg List.length hkeysr
      simpa using this
    refine ⟨displayBalances (subShare (totalAmount E / (members.length : ℚ)) r),
      ?_, ?_, ?_, ?_⟩
    · simp only [viewGroupBalances, computeBalances]
      rw [if_pos ⟨hE, hm⟩, hr]
      rfl
    · rw [keys_display, keys_subShare, hkeysr]
    · intro u hu
      rw [lookupBal_display, lookupBal_subShare, creditExpenses_lookup hr u,
        lookupBal_zeros, hded]
      simp [hu]
    · have hsumr : (r.map Prod.snd).sum = totalAmount E := by
        rw [creditExpenses_sum hr, sum_zeros, zero_add]
      have hsum0 : ((subShare (totalAmount E / (members.length : ℚ)) r).map
          Prod.snd).sum = 0 := by
        rw [sum_subShare, hsumr, hlenr]
        field_simp
      have hb := abs_sum_display (subShare (totalAmount E / (members.length : ℚ)) r)
      rw [hsum0, sub_zero] at hb
      have hlen : ((subShare (totalAmount E / (members.length : ℚ)) r).length : ℚ) =
          (members.length : ℚ) := by
        simp [subShare, hlenr]
      rw [hlen] at hb
      exact hb

/-- C1: for a group with a non-empty duplicate-free member list and a non-empty
expense list all of whose payers are members, the balance view_group displays
for each member u is the sum of the amounts u paid minus total/|M|, rounded to
two decimal places. -/
theorem view_group_member_balance (members : List UserId) (E : List Expense)
    (hnd : members.Nodup) (hm : members ≠ []) (_hE : E ≠ [])
    (hpay : ∀ e ∈ E, e.paid_by ∈ members) :
    ∃ b, viewGroupBalances members E = some b ∧
      ∀ u ∈ members, lookupBal u b =
        some (pyRound2 (paidBy u E - totalAmount E / (members.length : ℚ))) := by
  obtain ⟨b, h1, -, h3, -⟩ := viewGroupBalances_spec members E hnd hm hpay
  exact ⟨b, h1, h3⟩

/-- C1 witness: two members, one expense of 100 paid by member 1. -/
theorem view_group_member_balance_witness :
    ∃ b, viewGroupBalances [1, 2] [⟨1, 1, 1, "Dinner", 100⟩] = some b ∧
      ∀ u ∈ [1, 2], lookupBal u b =
        some (pyRound2 (paidBy u [⟨1, 1, 1, "Dinner", 100⟩] -
          totalAmount [⟨1, 1, 1, "Dinner", 100⟩] / (([1, 2] : List UserId).length : ℚ))) :=
  view_group_member_balance [1, 2] [⟨1, 1, 1, "Dinner", 100⟩]
    (by decide) (by decide) (by decide) (by decide)

/-- C2: for a group with at least one member (duplicate-free member list) and
any expense list whose payers are all members, the displayed balances sum to 0
within one cent per member. -/
theorem view_group_balances_sum_bounded (members : List UserId) (E : List Expense)
    (hnd : members.Nodup) (hm : members ≠ [])
    (hpay : ∀ e ∈ E, e.paid_by ∈ members) :
    ∃ b, viewGroupBalances members E = some b ∧
      |(b.map Prod.snd).sum| ≤ (members.length : ℚ) * (1 / 100) := by
  obtain ⟨b, h1, -, -, h4⟩ := viewGroupBalances_spec members E hnd hm hpay
  exact ⟨b, h1, h4⟩

/-- C2 witness: two members and one expense of 100 paid by member 1. -/
theorem view_group_balances_sum_bounded_witness :
    ∃ b, viewGroupBalances [1, 2] [⟨1, 1, 1, "Lunch", 100⟩] = some b ∧
      |(b.map Prod.snd).sum| ≤ (([1, 2] : List UserId).length : ℚ) * (1 / 100) :=
  view_group_balances_sum_bounded [1, 2] [⟨1, 1, 1, "Lunch", 100⟩]
    (by decide) (by decide) (by decide)

/-- C3 counterexample: with an empty member list and a non-empty expense list
the balance computation succeeds (the guard if expenses and members skips the
update loop) although the payer of the expense belongs to no member, so
totality is not equivalent to every payer being a member. -/
theorem compute_balances_total_iff_cex :
    (computeBalances [] [⟨1, 1, 1, "Dinner", 5⟩]).isSome ∧
      ¬ ∀ e ∈ [(⟨1, 1, 1, "Dinner", 5⟩ : Expense)],
          e.paid_by ∈ ([] : List UserId) := by
  refine ⟨rfl, ?_⟩
  intro h
  exact absurd (h ⟨1, 1, 1, "Dinner", 5⟩ (by simp)) (by simp)

/-- C3 (amended): the balance computation of view_group is total exactly when
the member list is empty or every expense payer is a member; in particular it
fails whenever the member list is non-empty and some payer is not a member. -/
theorem compute_balances_total_iff (members : List UserId) (E : List Expense) :
    (computeBalances members E).isSome ↔
      (members = [] ∨ ∀ e ∈ E, e.paid_by ∈ members) := by
  simp only [computeBalances]
  by_cases hc : E ≠ [] ∧ members ≠ []
  · rw [if_pos hc]
    have hiso : ∀ o : Option Balances,
        (o.map (fun b => subShare (totalAmount E / (members.length : ℚ)) b)).isSome =
          o.isSome := by
      intro o
      rcases o with _ | r <;> rfl
    rw [hiso, creditExpenses_isSome, keys_zeros]
    constructor
    · intro hall
      right
      intro e he
      exact List.mem_dedup.mp (hall e he)
    · intro hor e he
      rcases hor with hnil | hall
      · exact absurd hnil hc.2
      · exact List.mem_dedup.mpr (hall e he)
  · rw [if_neg hc]
    simp only [Option.isSome_some, true_iff]
    rcases not_and_or.mp hc with hE | hm
    · rw [not_not] at hE
      subst hE
      right
      intro e he
      exact absurd he (List.not_mem_nil e)
    · rw [not_not] at hm
      exact Or.inl hm

/-- C5 counterexample: a group with exactly one member and one expense paid by
a non-member produces no balance at all (the update loop raises KeyError), so
the member balance is not 0 on that input. -/
theorem one_member_balance_cex :
    viewGroupBalances [1] [⟨1, 1, 2, "Dinner", 5⟩] = none ∧
      ¬ ∃ b, viewGroupBalances [1] [⟨1, 1, 2, "Dinner", 5⟩] = some b ∧
        lookupBal 1 b = some 0 := by
  have h : viewGroupBalances [1] [⟨1, 1, 2, "Dinner", 5⟩] = none := rfl
  refine ⟨h, ?_⟩
  rintro ⟨b, hb, -⟩
  rw [h] at hb
  exact Option.noConfusion hb

/-- C5 (amended): a group with exactly one member and any list of expenses each
paid by that member always displays balance 0 for the member. -/
theorem one_member_balance_zero (u : UserId) (E : List Expense)
    (hpay : ∀ e ∈ E, e.paid_by = u) :
    ∃ b, viewGroupBalances [u] E = some b ∧ lookupBal u b = some 0 := by
  obtain ⟨b, h1, -, h3, -⟩ := viewGroupBalances_spec [u] E (by simp) (by simp)
    (fun e he => by simp [hpay e he])
  refine ⟨b, h1, ?_⟩
  rw [h3 u (by simp)]
  have hpaid : paidBy u E = totalAmount E := by
    unfold paidBy totalAmount
    congr 1
    rw [List.filter_eq_self.mpr]
    intro e he
    simp [hpay e he]
  simp [hpaid, pyRound2_zero]

/-- C5 witness: one member who paid the single expense. -/
theorem one_member_balance_zero_witness :
    ∃ b, viewGroupBalances [1] [⟨1, 1, 1, "Dinner", 5⟩] = some b ∧
      lookupBal 1 b = some 0 :=
  one_member_balance_zero 1 [⟨1, 1, 1, "Dinner", 5⟩] (by decide)

/-- C6: with no expenses view_group displays balance 0 for every member, and an
empty mapping when the member list is empty. -/
theorem empty_expenses_zero_balances (members : List UserId) :
    ∃ b, viewGroupBalances members [] = some b ∧
      (∀ u ∈ members, lookupBal u b = some 0) ∧ (members = [] → b = []) := by
  refine ⟨displayBalances (members.dedup.map (fun u => (u, (0 : ℚ)))), ?_, ?_, ?_⟩
  · simp [viewGroupBalances, computeBalances]
  · intro u hu
    rw [lookupBal_display, lookupBal_zeros]
    simp [List.mem_dedup, hu, pyRound2_zero]
  · intro h
    subst h
    simp [displayBalances]

/-- C4 counterexample: an add_expense POST with amount -5 to an existing group
persists an expense whose stored amount is -5, which is not strictly positive. -/
theorem add_expense_positive_amount_cex :
    (add_expense ⟨[], [⟨1, "Trip", 1⟩], [], []⟩ 1 1
        ⟨some "Dinner", some "-5"⟩ 1).2.expenses = [⟨1, 1, 1, "Dinner", -5⟩] ∧
      ¬ (0 : ℚ) < -5 := by
  constructor
  · have hpf : pyFloat "-5" = some (-5) := by
      have h : pyFloat "-5" = some ((-1) * ((digitsToNat ['5'] : ℕ) : ℚ)) := rfl
      rw [h, show (digitsToNat ['5'] : ℕ) = 5 from by decide]
      norm_num
    simp [add_expense, hpf, formFalsy]
  · norm_num

/-- C4 (amended): whenever add_expense persists an expense (the request that
redirects to the group page), the stored amount is exactly the float value
parsed from the amount field; no positivity condition is enforced, so a
parseable non-positive amount is stored as given. -/
theorem add_expense_stores_parsed_amount (db : DB) (gid : GroupId) (uid : UserId)
    (form : ExpenseForm) (newId : Nat)
    (h : (add_expense db gid uid form newId).1 = AddExpenseResult.redirectViewGroup) :
    ∃ s q, form.amount = some s ∧ pyFloat s = some q ∧
      (add_expense db gid uid form newId).2.expenses =
        db.expenses ++ [⟨newId, gid, uid, form.description.getD "", q⟩] := by
  by_cases hg : (db.groups.filter (fun g => g.id = gid)) = []
  · simp [add_expense, hg] at h
  · by_cases hd : (formFalsy form.description || formFalsy form.amount) = true
    · simp [add_expense, hg, hd] at h
    · rcases hp : pyFloat (form.amount.getD "") with _ | q
      · simp [add_expense, hg, hd, hp] at h
      · have hs : form.amount = some (form.amount.getD "") := by
          rcases hamt : form.amount with _ | s
          · rw [hamt] at hd
            simp [formFalsy] at hd
          · simp
        refine ⟨form.amount.getD "", q, hs, hp, ?_⟩
        simp [add_expense, hg, hd, hp]

/-- C4 witness: an expense with amount 12.5 is persisted with the parsed value. -/
theorem add_expense_stores_parsed_amount_witness :
    ∃ s q, (some "12.5" : Option String) = some s ∧ pyFloat s = some q ∧
      (add_expense ⟨[], [⟨1, "Trip", 1⟩], [], []⟩ 1 2
        ⟨some "Dinner", some "12.5"⟩ 7).2.expenses = [⟨7, 1, 2, "Dinner", q⟩] :=
  add_expense_stores_parsed_amount ⟨[], [⟨1, "Trip", 1⟩], [], []⟩ 1 2
    ⟨some "Dinner", some "12.5"⟩ 7 (by rfl)

/-- C7: an add_expense POST to an existing group whose amount field is missing
or does not parse as a float is redirected back to the add-expense form and
leaves the store, in particular the expense table, unchanged.  (A POST naming
a group id with no group row is answered 404 before the form is read.) -/
theorem add_expense_rejects_invalid_amount (db : DB) (gid : GroupId) (uid : UserId)
    (form : ExpenseForm) (newId : Nat)
    (hg : (db.groups.filter (fun g => g.id = gid)) ≠ [])
    (hbad : form.amount = none ∨ ∃ s, form.amount = some s ∧ pyFloat s = none) :
    add_expense db gid uid form newId = (AddExpenseResult.redirectAddExpense, db) := by
  rcases hbad with hnone | ⟨s, hs, hp⟩
  · simp [add_expense, hg, hnone, formFalsy]
  · by_cases hd : (formFalsy form.description || formFalsy form.amount) = true
    · simp [add_expense, hg, hd]
    · simp [add_expense, hg, hd, hs, hp]

/-- C7 witness: the amount string abc is rejected and the store is unchanged. -/
theorem add_expense_rejects_invalid_amount_witness :
    add_expense ⟨[], [⟨1, "Trip", 1⟩], [], []⟩ 1 1 ⟨some "Dinner", some "abc"⟩ 3 =
      (AddExpenseResult.redirectAddExpense, ⟨[], [⟨1, "Trip", 1⟩], [], []⟩) :=
  add_expense_rejects_invalid_amount ⟨[], [⟨1, "Trip", 1⟩], [], []⟩ 1 1
    ⟨some "Dinner", some "abc"⟩ 3 (by decide) (Or.inr ⟨"abc", rfl, by rfl⟩)

/-- C8: a signup POST whose email is already held by some stored user is
redirected back to the signup form and leaves the store, in particular the
user table, unchanged. -/
theorem signup_duplicate_email_rejected (hash : String → String) (db : DB)
    (username email password : String) (newId : UserId)
    (hdup : ∃ u ∈ db.users, u.email = email) :
    signup hash db username email password newId = (SignupResult.redirectSignup, db) := by
  obtain ⟨u, hu, he⟩ := hdup
  have hne : db.users.filter (fun v => v.email = email) ≠ [] := by
    intro hnil
    have hmem : u ∈ db.users.filter (fun v => v.email = email) :=
      List.mem_filter.mpr ⟨hu, by simp [he]⟩
    rw [hnil] at hmem
    exact absurd hmem (List.not_mem_nil u)
  simp [signup, hne]

/-- C8 witness: signing up with the stored email of user alice is rejected. -/
theorem signup_duplicate_email_rejected_witness :
    signup id ⟨[⟨1, "alice", "alice@mail.com", "h1"⟩], [], [], []⟩
      "bob" "alice@mail.com" "pw" 2 =
      (SignupResult.redirectSignup, ⟨[⟨1, "alice", "alice@mail.com", "h1"⟩], [], [], []⟩) :=
  signup_duplicate_email_rejected id ⟨[⟨1, "alice", "alice@mail.com", "h1"⟩], [], [], []⟩
    "bob" "alice@mail.com" "pw" 2 ⟨⟨1, "alice", "alice@mail.com", "h1"⟩, by simp, rfl⟩

/-- C9: a login POST whose email matches a stored user but whose password fails
check_password_hash against the stored hash never reaches login_user: the
response is the redirect back to the login form and no session is established. -/
theorem login_wrong_password_no_session (check : String → String → Bool) (db : DB)
    (email password : String) (user : User)
    (hfind : db.users.find? (fun u => u.email = email) = some user)
    (hcheck : check user.password password = false) :
    login check db email password = LoginResult.redirectLogin := by
  simp [login, hfind, hcheck]

/-- C9 witness: a wrong password for the stored user alice is rejected. -/
theorem login_wrong_password_no_session_witness :
    login (fun stored given => stored == given)
      ⟨[⟨1, "alice", "alice@mail.com", "hash1"⟩], [], [], []⟩
      "alice@mail.com" "wrong" = LoginResult.redirectLogin :=
  login_wrong_password_no_session (fun stored given => stored == given)
    ⟨[⟨1, "alice", "alice@mail.com", "hash1"⟩], [], [], []⟩
    "alice@mail.com" "wrong" ⟨1, "alice", "alice@mail.com", "hash1"⟩
    (by rfl) (by rfl)

/-- C10: view_group is read-only: after any view_group request every table of
the store is exactly what it was before; the balances in the response are
computed fresh from the store and nothing is written back. -/
theorem view_group_readonly (db : DB) (gid : GroupId) :
    (view_group db gid).2.users = db.users ∧
    (view_group db gid).2.groups = db.groups ∧
    (view_group db gid).2.group_members = db.group_members ∧
    (view_group db gid).2.expenses = db.expenses := by
  unfold view_group
  split
  · exact ⟨rfl, rfl, rfl, rfl⟩
  · exact ⟨rfl, rfl, rfl, rfl⟩

end ExpenseSplitter
